import Mathlib

/-!
Verification of the `internal/method` package of crossplane-tools: a
deterministic method-synthesis engine.  The embedding mirrors
`internal/method/method.go`: the registry (`Set`) and its `Write` loop, the
`DefinedOutside` filter over a type's pointer-receiver method set, the family
of accessor/mutator generators (modelled at the level of the emitted, jen-built
method declaration), and an operational semantics for the two generated
`PortableClassItems` methods, whose bodies carry real logic.
-/

namespace Method

/-- A member of a type's pointer-receiver method set: a method name together
with the file the method was declared in.  In the Go source the declaring file
is obtained through `fs.Position(mo.Pos()).Filename`; the embedding records
that resolved filename directly in the member. -/
structure Member where
  name : String
  file : String
  deriving DecidableEq

/-- The view of a `types.Object` that the package consults: the declared type
name `o.Name()` and the pointer-receiver method set
`types.NewMethodSet(types.NewPointer(o.Type()))`, each member annotated with
its declaring file. -/
structure Object where
  name : String
  ptrMethods : List Member
  deriving DecidableEq

/-- Go type expressions appearing in generated signatures and bodies, mirroring
the jen combinators used by the source (`Id`, `Qual`, `Op("*")`, `Index()`). -/
inductive GoType where
  | named (n : String)
  | qual (pkg n : String)
  | ptr (t : GoType)
  | slice (t : GoType)

/-- One parameter of a generated method; `variadic` records a `...` parameter
(jen `Op("...")`). -/
structure Param where
  name : String
  type : GoType
  variadic : Bool

/-- Go expressions appearing in generated method bodies, mirroring the jen
combinators used by the source. -/
inductive GoExpr where
  | id (n : String)
  | sel (e : GoExpr) (field : String)
  | call (f : GoExpr) (args : List GoExpr) (ellipsis : Bool)
  | star (e : GoExpr)
  | addr (e : GoExpr)
  | index (e i : GoExpr)
  | make (t : GoType) (args : List GoExpr)
  | conv (t : GoType) (e : GoExpr)

/-- Go statements appearing in generated method bodies.  `ifAssert` mirrors the
`if v, ok := scrut.(t); ok { body }` form and `define` the `v := rhs` form. -/
inductive GoStmt where
  | expr (e : GoExpr)
  | assign (lhs rhs : GoExpr)
  | define (v : String) (rhs : GoExpr)
  | ret (e : GoExpr)
  | forRange (v : String) (over : GoExpr) (body : List GoStmt)
  | ifAssert (v ok : String) (scrut : GoExpr) (t : GoType) (body : List GoStmt)

/-- One commented method declaration as a generator appends it to the jen file:
`f.Commentf(...)` followed by `f.Func().Params(recv).Id(name)...`. -/
structure MethodDecl where
  comment : String
  recvName : String
  recvType : GoType
  name : String
  params : List Param
  retType : Option GoType
  body : List GoStmt

/-- Modelled from the spec: constant `fields.NameSpec` of the internal `fields`
package, which is not under src; the spec describes the conventional field
names as "a Spec field and a Status field". -/
def NameSpec : String := "Spec"

/-- Modelled from the spec: constant `fields.NameStatus` of the internal
`fields` package, which is not under src. -/
def NameStatus : String := "Status"

/-- Embeds `type New func(f *jen.File, o types.Object)`: a generator appends
one commented method declaration to the supplied file, modelled as returning
that declaration. -/
abbrev New : Type := Object → MethodDecl

/-- Embeds `type Set map[string]New`.  The list order models the map's internal
storage order, which carries no meaning; the keys of a Go map are distinct. -/
abbrev Set : Type := List (String × New)

/-- Embeds `type Filter func(o types.Object, methodName string) bool`. -/
abbrev Filter : Type := Object → String → Bool

/-- The ascending order used by `sort.Strings`: lexicographic comparison of the
underlying character sequences. -/
def strOrder (a b : String) : Prop := a.data ≤ b.data

instance strOrderDec : DecidableRel strOrder :=
  fun a b => inferInstanceAs (Decidable (a.data ≤ b.data))

instance strOrderTrans : IsTrans String strOrder :=
  ⟨fun _ _ _ h1 h2 => le_trans h1 h2⟩

instance strOrderTotal : IsTotal String strOrder :=
  ⟨fun a b => le_total a.data b.data⟩

instance strOrderAntisymm : IsAntisymm String strOrder :=
  ⟨fun _ _ h1 h2 => String.ext (le_antisymm h1 h2)⟩

/-- Embeds the first half of `Set.Write`: collect the map's keys (in storage
order) and sort them with `sort.Strings`.  Any correct ascending sort yields
the same list, so the sort itself is modelled with insertion sort. -/
def Set.sortedNames (s : Set) : List String :=
  List.insertionSort strOrder (s.map Prod.fst)

/-- Embeds the loop of `Set.Write` over the sorted names: `continue` when the
filter returns true, otherwise invoke `s[name](f, o)`.  The lookup-miss branch
is unreachable in `Set.Write` because the names are the registry's own keys. -/
def runNames (s : Set) (o : Object) (mf : Filter) : List String → List MethodDecl
  | [] => []
  | n :: rest =>
    if mf o n then runNames s o mf rest
    else
      match s.lookup n with
      | some g => g o :: runNames s o mf rest
      | none => runNames s o mf rest

/-- Embeds `func (s Set) Write(f *jen.File, o types.Object, mf Filter)`: sort
the registered names ascending, then emit each generator's method unless the
filter suppresses its name. -/
def Set.Write (s : Set) (o : Object) (mf : Filter) : List MethodDecl :=
  runNames s o mf (Set.sortedNames s)

/-- Embeds the scan inside `DefinedOutside`'s returned closure: walk the
pointer-receiver method set; skip members with a different name; return true at
the first member with the candidate name declared in a different file. -/
def definedOutsideLoop (filename n : String) : List Member → Bool
  | [] => false
  | mo :: rest =>
    if mo.name ≠ n then definedOutsideLoop filename n rest
    else if mo.file ≠ filename then true
    else definedOutsideLoop filename n rest

/-- Embeds `func DefinedOutside(fs *token.FileSet, filename string) Filter`.
The `fs`-based position resolution is folded into `Member.file`. -/
def DefinedOutside (filename : String) : Filter :=
  fun o n => definedOutsideLoop filename n o.ptrMethods

/-- Embeds Go's `strings.TrimSuffix`: drop the suffix when present, otherwise
return the string unchanged. -/
def trimSuffix (s suffix : String) : String :=
  if s.endsWith suffix then s.dropRight suffix.length else s

/-- Embeds `NewSetConditions(receiver, runtime string) New`. -/
def NewSetConditions (receiver runtime : String) : New := fun o =>
  { comment := "SetConditions of this " ++ o.name ++ "."
    recvName := receiver
    recvType := .ptr (.named o.name)
    name := "SetConditions"
    params := [⟨"c", .qual runtime "Condition", true⟩]
    retType := none
    body := [.expr (.call (.sel (.sel (.id receiver) NameStatus) "SetConditions")
      [.id "c"] true)] }

/-- Embeds `NewGetCondition(receiver, runtime string) New`.  Note the source
emits a variadic `c ...runtime.Condition` parameter, no return type and no
return statement, exactly as `NewSetConditions` does. -/
def NewGetCondition (receiver runtime : String) : New := fun o =>
  { comment := "GetCondition of this " ++ o.name ++ "."
    recvName := receiver
    recvType := .ptr (.named o.name)
    name := "GetCondition"
    params := [⟨"c", .qual runtime "Condition", true⟩]
    retType := none
    body := [.expr (.call (.sel (.sel (.id receiver) NameStatus) "GetCondition")
      [.id "c"] true)] }

/-- Embeds `NewSetBindingPhase(receiver, runtime string) New`. -/
def NewSetBindingPhase (receiver runtime : String) : New := fun o =>
  { comment := "SetBindingPhase of this " ++ o.name ++ "."
    recvName := receiver
    recvType := .ptr (.named o.name)
    name := "SetBindingPhase"
    params := [⟨"p", .qual runtime "BindingPhase", false⟩]
    retType := none
    body := [.expr (.call (.sel (.sel (.id receiver) NameStatus) "SetBindingPhase")
      [.id "p"] false)] }

/-- Embeds `NewGetBindingPhase(receiver, runtime string) New`. -/
def NewGetBindingPhase (receiver runtime : String) : New := fun o =>
  { comment := "GetBindingPhase of this " ++ o.name ++ "."
    recvName := receiver
    recvType := .ptr (.named o.name)
    name := "GetBindingPhase"
    params := []
    retType := some (.qual runtime "BindingPhase")
    body := [.ret (.call (.sel (.sel (.id receiver) NameStatus) "GetBindingPhase")
      [] false)] }

/-- Embeds `NewSetClaimReference(receiver, core string) New`. -/
def NewSetClaimReference (receiver core : String) : New := fun o =>
  { comment := "SetClaimReference of this " ++ o.name ++ "."
    recvName := receiver
    recvType := .ptr (.named o.name)
    name := "SetClaimReference"
    params := [⟨"r", .ptr (.qual core "ObjectReference"), false⟩]
    retType := none
    body := [.assign (.sel (.sel (.id receiver) NameSpec) "ClaimReference") (.id "r")] }

/-- Embeds `NewGetClaimReference(receiver, core string) New`. -/
def NewGetClaimReference (receiver core : String) : New := fun o =>
  { comment := "GetClaimReference of this " ++ o.name ++ "."
    recvName := receiver
    recvType := .ptr (.named o.name)
    name := "GetClaimReference"
    params := []
    retType := some (.ptr (.qual core "ObjectReference"))
    body := [.ret (.sel (.sel (.id receiver) NameSpec) "ClaimReference")] }

/-- Embeds `NewSetResourceReference(receiver, core string) New`. -/
def NewSetResourceReference (receiver core : String) : New := fun o =>
  { comment := "SetResourceReference of this " ++ o.name ++ "."
    recvName := receiver
    recvType := .ptr (.named o.name)
    name := "SetResourceReference"
    params := [⟨"r", .ptr (.qual core "ObjectReference"), false⟩]
    retType := none
    body := [.assign (.sel (.sel (.id receiver) NameSpec) "ResourceReference") (.id "r")] }

/-- Embeds `NewGetResourceReference(receiver, core string) New`. -/
def NewGetResourceReference (receiver core : String) : New := fun o =>
  { comment := "GetResourceReference of this " ++ o.name ++ "."
    recvName := receiver
    recvType := .ptr (.named o.name)
    name := "GetResourceReference"
    params := []
    retType := some (.ptr (.qual core "ObjectReference"))
    body := [.ret (.sel (.sel (.id receiver) NameSpec) "ResourceReference")] }

/-- Embeds `NewSetNonPortableClassReference(receiver, core string) New`. -/
def NewSetNonPortableClassReference (receiver core : String) : New := fun o =>
  { comment := "SetNonPortableClassReference of this " ++ o.name ++ "."
    recvName := receiver
    recvType := .ptr (.named o.name)
    name := "SetNonPortableClassReference"
    params := [⟨"r", .ptr (.qual core "ObjectReference"), false⟩]
    retType := none
    body := [.assign (.sel (.sel (.id receiver) NameSpec) "NonPortableClassReference")
      (.id "r")] }

/-- Embeds `NewGetNonPortableClassReference(receiver, core string) New`. -/
def NewGetNonPortableClassReference (receiver core : String) : New := fun o =>
  { comment := "GetNonPortableClassReference of this " ++ o.name ++ "."
    recvName := receiver
    recvType := .ptr (.named o.name)
    name := "GetNonPortableClassReference"
    params := []
    retType := some (.ptr (.qual core "ObjectReference"))
    body := [.ret (.sel (.sel (.id receiver) NameSpec) "NonPortableClassReference")] }

/-- Embeds `NewSetPortableClassReference(receiver, core string) New`. -/
def NewSetPortableClassReference (receiver core : String) : New := fun o =>
  { comment := "SetPortableClassReference of this " ++ o.name ++ "."
    recvName := receiver
    recvType := .ptr (.named o.name)
    name := "SetPortableClassReference"
    params := [⟨"r", .ptr (.qual core "LocalObjectReference"), false⟩]
    retType := none
    body := [.assign (.sel (.sel (.id receiver) NameSpec) "PortableClassReference")
      (.id "r")] }

/-- Embeds `NewGetPortableClassReference(receiver, core string) New`. -/
def NewGetPortableClassReference (receiver core : String) : New := fun o =>
  { comment := "GetPortableClassReference of this " ++ o.name ++ "."
    recvName := receiver
    recvType := .ptr (.named o.name)
    name := "GetPortableClassReference"
    params := []
    retType := some (.ptr (.qual core "LocalObjectReference"))
    body := [.ret (.sel (.sel (.id receiver) NameSpec) "PortableClassReference")] }

/-- Embeds `NewSetWriteConnectionSecretToReference(receiver, core string) New`. -/
def NewSetWriteConnectionSecretToReference (receiver core : String) : New := fun o =>
  { comment := "SetWriteConnectionSecretToReference of this " ++ o.name ++ "."
    recvName := receiver
    recvType := .ptr (.named o.name)
    name := "SetWriteConnectionSecretToReference"
    params := [⟨"r", .qual core "LocalObjectReference", false⟩]
    retType := none
    body := [.assign (.sel (.sel (.id receiver) NameSpec) "WriteConnectionSecretToReference")
      (.id "r")] }

/-- Embeds `NewGetWriteConnectionSecretToReference(receiver, core string) New`. -/
def NewGetWriteConnectionSecretToReference (receiver core : String) : New := fun o =>
  { comment := "GetWriteConnectionSecretToReference of this " ++ o.name ++ "."
    recvName := receiver
    recvType := .ptr (.named o.name)
    name := "GetWriteConnectionSecretToReference"
    params := []
    retType := some (.qual core "LocalObjectReference")
    body := [.ret (.sel (.sel (.id receiver) NameSpec) "WriteConnectionSecretToReference")] }

/-- Embeds `NewSetReclaimPolicy(receiver, core, field string) New`. -/
def NewSetReclaimPolicy (receiver core field : String) : New := fun o =>
  { comment := "SetReclaimPolicy of this " ++ o.name ++ "."
    recvName := receiver
    recvType := .ptr (.named o.name)
    name := "SetReclaimPolicy"
    params := [⟨"r", .qual core "ReclaimPolicy", false⟩]
    retType := none
    body := [.assign (.sel (.sel (.id receiver) field) "ReclaimPolicy") (.id "r")] }

/-- Embeds `NewGetReclaimPolicy(receiver, runtime, field string) New`. -/
def NewGetReclaimPolicy (receiver runtime field : String) : New := fun o =>
  { comment := "GetReclaimPolicy of this " ++ o.name ++ "."
    recvName := receiver
    recvType := .ptr (.named o.name)
    name := "GetReclaimPolicy"
    params := []
    retType := some (.qual runtime "ReclaimPolicy")
    body := [.ret (.sel (.sel (.id receiver) field) "ReclaimPolicy")] }

/-- The declaration built inside `NewSetPortableClassItems` once the concrete
element type name has been derived (the local `element` variable in the Go
source). -/
def setPortableClassItemsDecl (receiver resource : String) (o : Object)
    (element : String) : MethodDecl :=
  { comment := "SetPortableClassItems of this " ++ o.name ++ "."
    recvName := receiver
    recvType := .ptr (.named o.name)
    name := "SetPortableClassItems"
    params := [⟨"i", .slice (.qual resource "PortableClass"), false⟩]
    retType := none
    body := [
      .assign (.sel (.id receiver) "Items")
        (.make (.slice (.named element)) [.id "0", .call (.id "len") [.id "i"] false]),
      .forRange "j" (.id "i") [
        .ifAssert "actual" "ok" (.index (.id "i") (.id "j")) (.ptr (.named element)) [
          .assign (.sel (.id receiver) "Items")
            (.call (.id "append") [.sel (.id receiver) "Items", .star (.id "actual")]
              false)]]] }

/-- Embeds `NewSetPortableClassItems(receiver, resource string) New`: the
element type name is `strings.TrimSuffix(o.Name(), "List")`. -/
def NewSetPortableClassItems (receiver resource : String) : New := fun o =>
  setPortableClassItemsDecl receiver resource o (trimSuffix o.name "List")

/-- Embeds `NewGetPortableClassItems(receiver, resource string) New`. -/
def NewGetPortableClassItems (receiver resource : String) : New := fun o =>
  { comment := "GetPortableClassItems of this " ++ o.name ++ "."
    recvName := receiver
    recvType := .ptr (.named o.name)
    name := "GetPortableClassItems"
    params := []
    retType := some (.slice (.qual resource "PortableClass"))
    body := [
      .define "items" (.make (.slice (.qual resource "PortableClass"))
        [.call (.id "len") [.sel (.id receiver) "Items"] false]),
      .forRange "i" (.sel (.id receiver) "Items") [
        .assign (.index (.id "items") (.id "i"))
          (.conv (.qual resource "PortableClass")
            (.addr (.index (.sel (.id receiver) "Items") (.id "i"))))],
      .ret (.id "items")] }

/-- A Go slice value: the visible elements together with the capacity of the
backing array. -/
structure GoSlice (α : Type) where
  data : List α
  cap : Nat
  deriving DecidableEq

/-- Go's `append` of one element.  The element is written into the existing
backing array while there is spare capacity; otherwise the runtime allocates a
larger array whose exact capacity is runtime-defined (the generated code under
scrutiny pre-allocates sufficient capacity, so that branch is never taken). -/
def sliceAppend {α : Type} (s : GoSlice α) (x : α) : GoSlice α :=
  if s.data.length < s.cap then ⟨s.data ++ [x], s.cap⟩
  else ⟨s.data ++ [x], max (2 * s.cap) (s.data.length + 1)⟩

/-- The receiver of the generated `PortableClassItems` methods: a list type
whose `Items` field holds the concrete elements. -/
structure ListValue (α : Type) where
  Items : GoSlice α
  deriving DecidableEq

/-- A pointer to a concrete element, as a capability value may hold one: either
the address `&r.Items[i]` of slot `i` of the backing array the receiver's
`Items` had when the call began (what the generated `Get` produces), or a
pointer to a cell outside the receiver that holds `v`. -/
inductive ElemRef (α : Type) where
  | itemsIndex (i : Nat)
  | external (v : α)
  deriving DecidableEq

/-- A `resource.PortableClass` interface value as the generated methods see it:
either its dynamic type is a pointer to the concrete element type (`ref`), or
it is any other value of the interface type, including the zero value `nil`,
on which the `.(*element)` type assertion fails (`other`). -/
inductive PortableClass (α : Type) where
  | ref (p : ElemRef α)
  | other
  deriving DecidableEq

/-- The checked narrowing `i[j].(*element)`: yields the contained pointer
exactly when the dynamic type is a pointer to the concrete element type. -/
def assertElemPtr {α : Type} : PortableClass α → Option (ElemRef α)
  | .ref p => some p
  | .other => none

/-- Dereference an element pointer.  `old` is the backing array the receiver's
`Items` had when the call began: the generated `Set` replaces the slice header
first, but input pointers still refer to that old array, which `Set` never
writes through.  `none` models a nil or out-of-range pointer, whose
dereference is a runtime panic. -/
def derefRef {α : Type} (old : List α) : ElemRef α → Option α
  | .itemsIndex i => old.get? i
  | .external v => some v

/-- Whether a capability value can be processed by the generated `Set` without
a runtime panic: a value of the concrete dynamic type must point at a live
cell; any other value merely fails the type assertion. -/
def capValid {α : Type} (old : List α) : PortableClass α → Bool
  | .ref p => (derefRef old p).isSome
  | .other => true

/-- The value the generated `Set` appends for one input element, if any:
narrow with the checked type assertion, then dereference. -/
def narrowDeref {α : Type} (old : List α) (c : PortableClass α) : Option α :=
  (assertElemPtr c).bind (derefRef old)

/-- The loop of the generated `SetPortableClassItems` body: for each input
element, append the dereferenced concrete value when the type assertion
succeeds and silently skip the element otherwise.  A failing dereference is a
runtime panic, modelled as `none`. -/
def setLoop {α : Type} (old : List α) (acc : GoSlice α) :
    List (PortableClass α) → Option (GoSlice α)
  | [] => some acc
  | c :: rest =>
    match assertElemPtr c with
    | some actual =>
      match derefRef old actual with
      | some v => setLoop old (sliceAppend acc v) rest
      | none => none
    | none => setLoop old acc rest

/-- Operational semantics of the method emitted by `NewSetPortableClassItems`:
`r.Items = make([]element, 0, len(i))`, then the append loop; the final value
of `r.Items` is the accumulated slice.  Input pointers refer to the backing
array `r.Items` had on entry. -/
def SetPortableClassItemsImpl {α : Type} (r : ListValue α)
    (i : List (PortableClass α)) : Option (ListValue α) :=
  (setLoop r.Items.data ⟨[], i.length⟩ i).map (fun items => { Items := items })

/-- The loop of the generated `GetPortableClassItems` body:
`items[i] = resource.PortableClass(&r.Items[i])` for each index of
`r.Items`. -/
def getLoop {α : Type} (items : List (PortableClass α)) :
    List Nat → List (PortableClass α)
  | [] => items
  | i :: rest => getLoop (items.set i (.ref (.itemsIndex i))) rest

/-- Operational semantics of the method emitted by `NewGetPortableClassItems`:
allocate `items := make([]resource.PortableClass, len(r.Items))` (filled with
the zero value, a nil interface), assign every index a capability value
converted from the address of the corresponding element, and return it.  The
receiver comes back unchanged: the body assigns only to the local `items`. -/
def GetPortableClassItemsImpl {α : Type} (r : ListValue α) :
    List (PortableClass α) × ListValue α :=
  (getLoop (List.replicate r.Items.data.length .other)
    (List.range r.Items.data.length), r)

/-- The loop of `Set.Write` emits, in order, the generator output of every
visited name the filter does not suppress; a name missing from the registry
contributes nothing. -/
theorem runNames_eq (s : Set) (o : Object) (mf : Filter) :
    ∀ names : List String,
      runNames s o mf names
        = (names.filter (fun n => !(mf o n))).filterMap
            (fun n => (s.lookup n).map (fun g => g o)) := by
  intro names
  induction names with
  | nil => rfl
  | cons n rest ih =>
    by_cases h : mf o n
    · simp [runNames, h, ih]
    · cases hl : s.lookup n with
      | none => simp [runNames, h, hl, ih]
      | some g => simp [runNames, h, hl, ih]

/-- The loop of `Set.Write` never consults the generator of a name the filter
suppresses: two registries that agree on the unsuppressed names produce the
same output. -/
theorem runNames_congr (s s2 : Set) (o : Object) (mf : Filter) :
    ∀ names : List String,
      (∀ n ∈ names, mf o n = false → s.lookup n = s2.lookup n) →
      runNames s o mf names = runNames s2 o mf names := by
  intro names
  induction names with
  | nil => exact fun _ => rfl
  | cons n rest ih =>
    intro hagr
    by_cases h : mf o n
    · simp only [runNames, h, if_true]
      exact ih fun m hm => hagr m (List.mem_cons_of_mem n hm)
    · have hl : s.lookup n = s2.lookup n :=
        hagr n (List.mem_cons_self n rest) (Bool.not_eq_true _ ▸ h)
      have htail := ih fun m hm => hagr m (List.mem_cons_of_mem n hm)
      simp only [runNames, h, if_false, ← hl]
      cases s.lookup n <;> simp [htail]

/-- A key present in an association list is found by `lookup`. -/
theorem lookup_isSome_of_mem {β : Type} (s : List (String × β)) (n : String)
    (h : n ∈ s.map Prod.fst) : (s.lookup n).isSome := by
  induction s with
  | nil => simp at h
  | cons kv rest ih =>
    by_cases hk : n == kv.1
    · simp [List.lookup, hk]
    · have : n ∈ rest.map Prod.fst := by
        rcases List.mem_cons.mp h with h1 | h1
        · exact absurd (beq_iff_eq.mpr h1) hk
        · exact h1
      simp [List.lookup, hk, ih this]

/-- With distinct keys, `lookup` finds a value exactly when the pair is in the
list. -/
theorem lookup_eq_some_iff {β : Type} (s : List (String × β))
    (hnd : (s.map Prod.fst).Nodup) (n : String) (g : β) :
    s.lookup n = some g ↔ (n, g) ∈ s := by
  induction s with
  | nil => simp [List.lookup]
  | cons kv rest ih =>
    obtain ⟨k, v⟩ := kv
    simp only [List.map_cons, List.nodup_cons] at hnd
    obtain ⟨hout, hnd'⟩ := hnd
    by_cases hk : n = k
    · subst hk
      simp only [List.lookup, beq_self_eq_true]
      constructor
      · intro hv
        rw [← Option.some.inj hv]
        exact List.mem_cons_self _ _
      · intro hv
        rcases List.mem_cons.mp hv with h1 | h1
        · exact congrArg some (congrArg Prod.snd h1).symm
        · exact absurd (List.mem_map_of_mem Prod.fst h1) hout
    · have hbeq : (n == k) = false := beq_eq_false_iff_ne.mpr hk
      simp only [List.lookup, hbeq]
      rw [ih hnd']
      constructor
      · exact fun h1 => List.mem_cons_of_mem _ h1
      · intro h1
        rcases List.mem_cons.mp h1 with h2 | h2
        · exact absurd (congrArg Prod.fst h2) hk
        · exact h2

/-- A key absent from an association list is not found by `lookup`. -/
theorem lookup_eq_none_iff {β : Type} (s : List (String × β)) (n : String) :
    s.lookup n = none ↔ n ∉ s.map Prod.fst := by
  induction s with
  | nil => simp [List.lookup]
  | cons kv rest ih =>
    by_cases hk : n == kv.1
    · simp [List.lookup, hk, beq_iff_eq.mp hk]
    · simp [List.lookup, hk, ih, beq_eq_false_iff_ne.mp (Bool.not_eq_true _ ▸ hk)]

/-- Reordering an association list with distinct keys does not change any
lookup. -/
theorem lookup_perm_eq {β : Type} {s s2 : List (String × β)} (hp : s.Perm s2)
    (hnd : (s.map Prod.fst).Nodup) (n : String) : s.lookup n = s2.lookup n := by
  have hnd2 : (s2.map Prod.fst).Nodup := ((hp.map Prod.fst).nodup_iff).mp hnd
  cases h : s.lookup n with
  | none =>
    have : n ∉ s.map Prod.fst := (lookup_eq_none_iff s n).mp h
    have : n ∉ s2.map Prod.fst := fun hmem =>
      this (((hp.map Prod.fst).mem_iff).mpr hmem)
    exact ((lookup_eq_none_iff s2 n).mpr this).symm
  | some g =>
    have : (n, g) ∈ s := (lookup_eq_some_iff s hnd n g).mp h
    have : (n, g) ∈ s2 := hp.mem_iff.mp this
    exact ((lookup_eq_some_iff s2 hnd2 n g).mpr this).symm

/-- The name list `Set.Write` iterates over is sorted ascending. -/
theorem sortedNames_sorted (s : Set) : List.Sorted strOrder (Set.sortedNames s) :=
  List.sorted_insertionSort strOrder _

/-- The name list `Set.Write` iterates over is a permutation of the registry's
keys. -/
theorem sortedNames_perm (s : Set) : (Set.sortedNames s).Perm (s.map Prod.fst) :=
  List.perm_insertionSort strOrder _

/-- Registries holding the same keys in any storage order are iterated over in
the same sorted order. -/
theorem sortedNames_eq_of_perm {s s2 : Set} (hp : s.Perm s2) :
    Set.sortedNames s = Set.sortedNames s2 :=
  List.eq_of_perm_of_sorted
    ((sortedNames_perm s).trans ((hp.map Prod.fst).trans (sortedNames_perm s2).symm))
    (sortedNames_sorted s) (sortedNames_sorted s2)

/-- The fill loop of the generated `Get` writes the capability view of slot `i`
at every index `i` listed in `l` that lies inside the allocated sequence, and
leaves every other slot alone. -/
theorem getLoop_spec {α : Type} :
    ∀ (l : List Nat) (items : List (PortableClass α)),
      (getLoop items l).length = items.length
      ∧ ∀ i : Nat, (getLoop items l)[i]?
          = if i ∈ l ∧ i < items.length
            then some (.ref (.itemsIndex i)) else items[i]? := by
  intro l
  induction l with
  | nil =>
    intro items
    exact ⟨rfl, fun i => by simp [getLoop]⟩
  | cons j rest ih =>
    intro items
    obtain ⟨ihlen, ihget⟩ := ih (items.set j (.ref (.itemsIndex j)))
    refine ⟨by simpa [List.length_set] using ihlen, fun i => ?_⟩
    rw [show getLoop items (j :: rest)
        = getLoop (items.set j (.ref (.itemsIndex j))) rest from rfl]
    rw [ihget i, List.length_set]
    by_cases hij : j = i
    · subst hij
      by_cases hlt : j < items.length
      · simp [hlt, List.getElem?_set_eq_of_lt _ hlt, List.mem_cons]
      · have hnone : items[j]? = none := List.getElem?_eq_none (by omega)
        have hset : (items.set j (.ref (.itemsIndex j)))[j]? = none := by
          rw [List.getElem?_set]
          simp [hlt]
        simp [hlt, hnone, hset]
    · have hset : (items.set j (.ref (.itemsIndex j)))[i]? = items[i]? :=
        List.getElem?_set_ne hij
      have hij' : ¬(i = j) := fun h => hij h.symm
      simp [hset, hij', List.mem_cons]

/-- The append loop of the generated `Set` turns a valid input list into
exactly the narrowed-and-dereferenced survivors, appended in order behind the
accumulator, and never grows the backing array while capacity suffices. -/
theorem setLoop_spec {α : Type} (old : List α) :
    ∀ (l : List (PortableClass α)) (acc : GoSlice α),
      (∀ c ∈ l, capValid old c = true) →
      acc.data.length + (l.filterMap (narrowDeref old)).length ≤ acc.cap →
      setLoop old acc l = some ⟨acc.data ++ l.filterMap (narrowDeref old), acc.cap⟩ := by
  intro l
  induction l with
  | nil =>
    intro acc _ _
    simp [setLoop]
  | cons c rest ih =>
    intro acc hval hcap
    cases hc : assertElemPtr c with
    | none =>
      have hnil : narrowDeref old c = none := by simp [narrowDeref, hc]
      simp only [setLoop, hc]
      rw [ih acc (fun m hm => hval m (List.mem_cons_of_mem c hm))
        (by simpa [List.filterMap_cons, hnil] using hcap)]
      simp [List.filterMap_cons, hnil]
    | some actual =>
      have hcval : c = .ref actual := by
        cases c with
        | ref p => exact congrArg PortableClass.ref (Option.some.inj hc)
        | other => exact absurd hc (by simp [assertElemPtr])
      have hv : (derefRef old actual).isSome = true := by
        have := hval c (List.mem_cons_self c rest)
        rw [hcval] at this
        exact this
      obtain ⟨v, hvv⟩ := Option.isSome_iff_exists.mp hv
      have hnd : narrowDeref old c = some v := by simp [narrowDeref, hc, hvv]
      have hcap' : (acc.data ++ [v]).length
          + (rest.filterMap (narrowDeref old)).length ≤ acc.cap := by
        rw [List.filterMap_cons, hnd] at hcap
        simp only [List.length_append, List.length_singleton]
        simp only [List.length_cons] at hcap
        omega
      have hlt : acc.data.length < acc.cap := by
        simp only [List.length_append, List.length_singleton] at hcap'
        omega
      have happ : sliceAppend acc v = ⟨acc.data ++ [v], acc.cap⟩ := by
        simp [sliceAppend, hlt]
      simp only [setLoop, hc, hvv, happ]
      rw [ih ⟨acc.data ++ [v], acc.cap⟩
        (fun m hm => hval m (List.mem_cons_of_mem c hm)) hcap']
      simp [List.filterMap_cons, hnd]

/-- A list whose elements all map to `some` keeps its length under
`filterMap`. -/
theorem length_filterMap_isSome {β γ : Type} (f : β → Option γ) :
    ∀ l : List β, (∀ x ∈ l, (f x).isSome) → (l.filterMap f).length = l.length := by
  intro l
  induction l with
  | nil => exact fun _ => rfl
  | cons x rest ih =>
    intro h
    have hx := h x (List.mem_cons_self x rest)
    cases hfx : f x with
    | none => rw [hfx] at hx; simp at hx
    | some y =>
      simp [List.filterMap_cons, hfx,
        ih fun m hm => h m (List.mem_cons_of_mem x hm)]

/-- The scan of `DefinedOutside` reports true exactly when some member of the
scanned method set has the candidate name and a declaring file different from
the target. -/
theorem definedOutsideLoop_iff (F n : String) :
    ∀ ms : List Member,
      (definedOutsideLoop F n ms = true
        ↔ ∃ m ∈ ms, m.name = n ∧ m.file ≠ F) := by
  intro ms
  induction ms with
  | nil => simp [definedOutsideLoop]
  | cons mo rest ih =>
    simp only [definedOutsideLoop]
    by_cases h1 : mo.name = n
    · rw [if_neg (by simp [h1])]
      by_cases h2 : mo.file = F
      · rw [if_neg (by simp [h2]), ih]
        constructor
        · rintro ⟨m, hm, hprop⟩
          exact ⟨m, List.mem_cons_of_mem mo hm, hprop⟩
        · rintro ⟨m, hm, hname, hfile⟩
          rcases List.mem_cons.mp hm with rfl | hm'
          · exact absurd h2 hfile
          · exact ⟨m, hm', hname, hfile⟩
      · rw [if_pos h2]
        exact iff_of_true rfl ⟨mo, List.mem_cons_self mo rest, h1, h2⟩
    · rw [if_pos h1, ih]
      constructor
      · rintro ⟨m, hm, hprop⟩
        exact ⟨m, List.mem_cons_of_mem mo hm, hprop⟩
      · rintro ⟨m, hm, hname, hfile⟩
        rcases List.mem_cons.mp hm with rfl | hm'
        · exact absurd hname h1
        · exact ⟨m, hm', hname, hfile⟩

/-- C1: for every object `o`, candidate name `n` and target filename `F`, the
filter `DefinedOutside(fs, F)(o, n)` returns true iff the pointer-receiver
method set of `o` has a member named `n` declared in a file other than `F`; it
returns false when no member is named `n`, and false when every member named
`n` was declared in `F` itself. -/
theorem definedOutside_spec (F : String) (o : Object) (n : String) :
    (DefinedOutside F o n = true
      ↔ ∃ m ∈ o.ptrMethods, m.name = n ∧ m.file ≠ F)
    ∧ ((∀ m ∈ o.ptrMethods, m.name ≠ n) → DefinedOutside F o n = false)
    ∧ ((∀ m ∈ o.ptrMethods, m.name = n → m.file = F)
        → DefinedOutside F o n = false) := by
  have hiff := definedOutsideLoop_iff F n o.ptrMethods
  refine ⟨hiff, fun hno => ?_, fun hall => ?_⟩
  · rw [Bool.eq_false_iff]
    intro htrue
    obtain ⟨m, hm, hname, _⟩ := hiff.mp htrue
    exact hno m hm hname
  · rw [Bool.eq_false_iff]
    intro htrue
    obtain ⟨m, hm, hname, hfile⟩ := hiff.mp htrue
    exact hfile (hall m hm hname)

/-- Witness for C1: the only member named Validate was declared in the very
file being generated, so the filter does not suppress. -/
theorem definedOutside_spec_witness :
    DefinedOutside "zz_generated.go"
      ⟨"Parent", [⟨"Validate", "zz_generated.go"⟩]⟩ "Validate" = false :=
  (definedOutside_spec "zz_generated.go"
    ⟨"Parent", [⟨"Validate", "zz_generated.go"⟩]⟩ "Validate").2.2 (by decide)

/-- C2: `Set.Write` visits the registered names in ascending lexicographic
order, whatever the map's storage order; for a registry holding exactly
GetFoo, SetFoo and AddFoo with nothing suppressed, the methods are emitted in
the order AddFoo, GetFoo, SetFoo. -/
theorem write_sorted_order :
    (∀ s : Set, List.Sorted strOrder (Set.sortedNames s))
    ∧ (∀ s s2 : Set, s.Perm s2 → Set.sortedNames s = Set.sortedNames s2)
    ∧ (∀ (g1 g2 g3 : New) (o : Object),
        Set.Write [("GetFoo", g1), ("SetFoo", g2), ("AddFoo", g3)] o
          (fun _ _ => false) = [g3 o, g1 o, g2 o]) :=
  ⟨sortedNames_sorted, fun _ _ hp => sortedNames_eq_of_perm hp,
    fun _ _ _ _ => rfl⟩

/-- Witness for C2: two storage orders of the same two-name registry are
iterated over in the same sorted order. -/
theorem write_sorted_order_witness :
    Set.sortedNames
        [("B", fun _ => (⟨"", "", GoType.named "", "", [], none, []⟩ : MethodDecl)),
         ("A", fun _ => (⟨"", "", GoType.named "", "", [], none, []⟩ : MethodDecl))]
      = Set.sortedNames
        [("A", fun _ => (⟨"", "", GoType.named "", "", [], none, []⟩ : MethodDecl)),
         ("B", fun _ => (⟨"", "", GoType.named "", "", [], none, []⟩ : MethodDecl))] :=
  write_sorted_order.2.1 _ _ (List.Perm.swap _ _ _)

/-- C3: `Set.Write` emits one method declaration for each registered name the
filter does not suppress, and the generator of a suppressed name is never
invoked: the output is insensitive to what the registry stores at suppressed
names. -/
theorem write_filter_spec (s : Set) (o : Object) (mf : Filter) :
    Set.Write s o mf
      = ((Set.sortedNames s).filter (fun n => !(mf o n))).filterMap
          (fun n => (s.lookup n).map (fun g => g o))
    ∧ (Set.Write s o mf).length
        = ((s.map Prod.fst).filter (fun n => !(mf o n))).length
    ∧ (∀ s2 : Set, s2.map Prod.fst = s.map Prod.fst →
        (∀ n, mf o n = false → s2.lookup n = s.lookup n) →
        Set.Write s2 o mf = Set.Write s o mf) := by
  have hmain := runNames_eq s o mf (Set.sortedNames s)
  refine ⟨hmain, ?_, ?_⟩
  · have hsome : ∀ n ∈ (Set.sortedNames s).filter (fun n => !(mf o n)),
        ((s.lookup n).map (fun g => g o)).isSome := by
      intro n hn
      have hkeys : n ∈ s.map Prod.fst :=
        (sortedNames_perm s).subset (List.mem_of_mem_filter hn)
      have hs := lookup_isSome_of_mem s n hkeys
      cases hl : s.lookup n with
      | none => rw [hl] at hs; simp at hs
      | some g => simp [hl]
    rw [show Set.Write s o mf = runNames s o mf (Set.sortedNames s) from rfl,
      hmain, length_filterMap_isSome _ _ hsome]
    exact ((sortedNames_perm s).filter _).length_eq
  · intro s2 hkeys hagr
    have hnames : Set.sortedNames s2 = Set.sortedNames s := by
      show List.insertionSort strOrder (s2.map Prod.fst)
        = List.insertionSort strOrder (s.map Prod.fst)
      rw [hkeys]
    rw [show Set.Write s2 o mf = runNames s2 o mf (Set.sortedNames s2) from rfl,
      hnames, show Set.Write s o mf = runNames s o mf (Set.sortedNames s) from rfl]
    exact runNames_congr s2 s o mf (Set.sortedNames s) (fun n _ hf => hagr n hf)

/-- Witness for C3: with every name suppressed, registries that differ in
their generators produce the same (empty) output: the suppressed generator is
not consulted. -/
theorem write_filter_spec_witness :
    Set.Write
        [("A", fun _ => (⟨"", "", GoType.named "", "", [], none, []⟩ : MethodDecl))]
        ⟨"X", []⟩ (fun _ _ => true)
      = Set.Write
        [("A", fun _ => (⟨"doc", "v", GoType.named "T", "M", [], none, []⟩ : MethodDecl))]
        ⟨"X", []⟩ (fun _ _ => true) :=
  (write_filter_spec
    [("A", fun _ => (⟨"doc", "v", GoType.named "T", "M", [], none, []⟩ : MethodDecl))]
    ⟨"X", []⟩ (fun _ _ => true)).2.2
    [("A", fun _ => (⟨"", "", GoType.named "", "", [], none, []⟩ : MethodDecl))]
    rfl (fun _ hn => nomatch hn)

/-- C6: with no pre-existing definitions involved, `Set.Write` is a pure
function of the registry's contents: reorderings of the backing storage
produce identical output in the same order, so two invocations on the same
registry and descriptor emit identical output. -/
theorem write_deterministic (s s2 : Set) (o : Object) (mf : Filter)
    (hp : s.Perm s2) (hnd : (s.map Prod.fst).Nodup) :
    Set.Write s o mf = Set.Write s2 o mf := by
  rw [show Set.Write s o mf = runNames s o mf (Set.sortedNames s) from rfl,
    show Set.Write s2 o mf = runNames s2 o mf (Set.sortedNames s2) from rfl,
    ← sortedNames_eq_of_perm hp]
  exact runNames_congr s s2 o mf (Set.sortedNames s)
    (fun n _ _ => lookup_perm_eq hp hnd n)

/-- Witness for C6: the two storage orders of a concrete two-name registry
yield equal `Set.Write` output. -/
theorem write_deterministic_witness :
    Set.Write
        [("B", fun _ => (⟨"", "", GoType.named "", "", [], none, []⟩ : MethodDecl)),
         ("A", fun _ => (⟨"", "", GoType.named "", "", [], none, []⟩ : MethodDecl))]
        ⟨"X", []⟩ (fun _ _ => false)
      = Set.Write
        [("A", fun _ => (⟨"", "", GoType.named "", "", [], none, []⟩ : MethodDecl)),
         ("B", fun _ => (⟨"", "", GoType.named "", "", [], none, []⟩ : MethodDecl))]
        ⟨"X", []⟩ (fun _ _ => false) :=
  write_deterministic _ _ _ _ (List.Perm.swap _ _ _) (by decide)

/-- C4: the generated `SetPortableClassItems`, on any input whose
concrete-typed capability values point at live cells, fully replaces `Items`
with a freshly built sequence of capacity `len(input)` holding exactly the
dereferenced values of the inputs whose checked narrowing succeeds, in their
original relative order; elements whose narrowing fails are silently dropped
and no error is produced. -/
theorem setPortableClassItems_semantics {α : Type} (r : ListValue α)
    (input : List (PortableClass α))
    (hvalid : ∀ c ∈ input, capValid r.Items.data c = true) :
    SetPortableClassItemsImpl r input
      = some { Items := ⟨input.filterMap (narrowDeref r.Items.data), input.length⟩ } := by
  have h := setLoop_spec r.Items.data input ⟨[], input.length⟩ hvalid
    (by simpa using List.length_filterMap_le (narrowDeref r.Items.data) input)
  rw [show SetPortableClassItemsImpl r input
      = (setLoop r.Items.data ⟨[], input.length⟩ input).map
          (fun items => { Items := items }) from rfl, h]
  simp

/-- Witness for C4: of three inputs, one fails the narrowing and is dropped;
the two survivors are kept in order, the capacity is the input length, and the
old second element is read through its pointer. -/
theorem setPortableClassItems_semantics_witness :
    SetPortableClassItemsImpl (⟨⟨[10, 20], 2⟩⟩ : ListValue Nat)
        [.ref (.external 5), .other, .ref (.itemsIndex 1)]
      = some ⟨⟨[5, 20], 3⟩⟩ :=
  setPortableClassItems_semantics ⟨⟨[10, 20], 2⟩⟩
    [.ref (.external 5), .other, .ref (.itemsIndex 1)] (by decide)

/-- C5: the generated `GetPortableClassItems` returns a sequence of the same
length as `Items` whose element at index `i` is a capability value wrapping
the address of `Items[i]` — a view, not a copy — in index order; it never
fails and never drops an element. -/
theorem getPortableClassItems_semantics {α : Type} (r : ListValue α) :
    (GetPortableClassItemsImpl r).1
      = (List.range r.Items.data.length).map
          (fun i => PortableClass.ref (ElemRef.itemsIndex i))
    ∧ (GetPortableClassItemsImpl r).1.length = r.Items.data.length := by
  obtain ⟨hlen, hget⟩ := getLoop_spec (List.range r.Items.data.length)
    (List.replicate r.Items.data.length (PortableClass.other (α := α)))
  have hfst : (GetPortableClassItemsImpl r).1
      = getLoop (List.replicate r.Items.data.length .other)
        (List.range r.Items.data.length) := rfl
  constructor
  · rw [hfst]
    apply List.ext_getElem?
    intro i
    rw [hget i, List.length_replicate]
    by_cases hlt : i < r.Items.data.length
    · simp [List.mem_range, hlt, List.getElem?_map, List.getElem?_range hlt]
    · have h1 : (List.range r.Items.data.length)[i]? = none :=
        List.getElem?_eq_none (by simpa [List.length_range] using hlt)
      simp [List.mem_range, hlt, List.getElem?_map, h1, List.getElem?_replicate]
  · rw [hfst, hlen, List.length_replicate]

/-- C7 evaluation: the method emitted by `NewGetCondition` for a concrete
object has no return type, carries a variadic value parameter
`c ...runtime.Condition`, and its body is a bare call statement rather than a
return of the field's value — the Get-family contract does not hold for it. -/
theorem getCondition_no_return :
    (NewGetCondition "v" "runtime" ⟨"Parent", []⟩).retType = none
    ∧ (NewGetCondition "v" "runtime" ⟨"Parent", []⟩).params
        = [⟨"c", .qual "runtime" "Condition", true⟩]
    ∧ (NewGetCondition "v" "runtime" ⟨"Parent", []⟩).body
        = [.expr (.call (.sel (.sel (.id "v") NameStatus) "GetCondition")
            [.id "c"] true)] :=
  ⟨rfl, rfl, rfl⟩

/-- C8: the generated `GetPortableClassItems` leaves the receiver unchanged,
and calling it twice without an intervening `Set` returns equal sequences. -/
theorem getPortableClassItems_idempotent {α : Type} (r : ListValue α) :
    (GetPortableClassItemsImpl r).2 = r
    ∧ (GetPortableClassItemsImpl ((GetPortableClassItemsImpl r).2)).1
        = (GetPortableClassItemsImpl r).1 :=
  ⟨rfl, rfl⟩

/-- C9: every generator of the package emits a method whose receiver clause is
the configured receiver variable with type pointer-to-the-named-type, for
every object and every configuration — so a generated method lands in the
pointer-receiver method set that `DefinedOutside` queries. -/
theorem generators_pointer_receiver :
    (∀ (receiver runtime : String) (o : Object),
      (NewSetConditions receiver runtime o).recvType = .ptr (.named o.name)
      ∧ (NewSetConditions receiver runtime o).recvName = receiver)
    ∧ (∀ (receiver runtime : String) (o : Object),
      (NewGetCondition receiver runtime o).recvType = .ptr (.named o.name)
      ∧ (NewGetCondition receiver runtime o).recvName = receiver)
    ∧ (∀ (receiver runtime : String) (o : Object),
      (NewSetBindingPhase receiver runtime o).recvType = .ptr (.named o.name)
      ∧ (NewSetBindingPhase receiver runtime o).recvName = receiver)
    ∧ (∀ (receiver runtime : String) (o : Object),
      (NewGetBindingPhase receiver runtime o).recvType = .ptr (.named o.name)
      ∧ (NewGetBindingPhase receiver runtime o).recvName = receiver)
    ∧ (∀ (receiver core : String) (o : Object),
      (NewSetClaimReference receiver core o).recvType = .ptr (.named o.name)
      ∧ (NewSetClaimReference receiver core o).recvName = receiver)
    ∧ (∀ (receiver core : String) (o : Object),
      (NewGetClaimReference receiver core o).recvType = .ptr (.named o.name)
      ∧ (NewGetClaimReference receiver core o).recvName = receiver)
    ∧ (∀ (receiver core : String) (o : Object),
      (NewSetResourceReference receiver core o).recvType = .ptr (.named o.name)
      ∧ (NewSetResourceReference receiver core o).recvName = receiver)
    ∧ (∀ (receiver core : String) (o : Object),
      (NewGetResourceReference receiver core o).recvType = .ptr (.named o.name)
      ∧ (NewGetResourceReference receiver core o).recvName = receiver)
    ∧ (∀ (receiver core : String) (o : Object),
      (NewSetNonPortableClassReference receiver core o).recvType = .ptr (.named o.name)
      ∧ (NewSetNonPortableClassReference receiver core o).recvName = receiver)
    ∧ (∀ (receiver core : String) (o : Object),
      (NewGetNonPortableClassReference receiver core o).recvType = .ptr (.named o.name)
      ∧ (NewGetNonPortableClassReference receiver core o).recvName = receiver)
    ∧ (∀ (receiver core : String) (o : Object),
      (NewSetPortableClassReference receiver core o).recvType = .ptr (.named o.name)
      ∧ (NewSetPortableClassReference receiver core o).recvName = receiver)
    ∧ (∀ (receiver core : String) (o : Object),
      (NewGetPortableClassReference receiver core o).recvType = .ptr (.named o.name)
      ∧ (NewGetPortableClassReference receiver core o).recvName = receiver)
    ∧ (∀ (receiver core : String) (o : Object),
      (NewSetWriteConnectionSecretToReference receiver core o).recvType
          = .ptr (.named o.name)
      ∧ (NewSetWriteConnectionSecretToReference receiver core o).recvName = receiver)
    ∧ (∀ (receiver core : String) (o : Object),
      (NewGetWriteConnectionSecretToReference receiver core o).recvType
          = .ptr (.named o.name)
      ∧ (NewGetWriteConnectionSecretToReference receiver core o).recvName = receiver)
    ∧ (∀ (receiver core field : String) (o : Object),
      (NewSetReclaimPolicy receiver core field o).recvType = .ptr (.named o.name)
      ∧ (NewSetReclaimPolicy receiver core field o).recvName = receiver)
    ∧ (∀ (receiver runtime field : String) (o : Object),
      (NewGetReclaimPolicy receiver runtime field o).recvType = .ptr (.named o.name)
      ∧ (NewGetReclaimPolicy receiver runtime field o).recvName = receiver)
    ∧ (∀ (receiver resource : String) (o : Object),
      (NewSetPortableClassItems receiver resource o).recvType = .ptr (.named o.name)
      ∧ (NewSetPortableClassItems receiver resource o).recvName = receiver)
    ∧ (∀ (receiver resource : String) (o : Object),
      (NewGetPortableClassItems receiver resource o).recvType = .ptr (.named o.name)
      ∧ (NewGetPortableClassItems receiver resource o).recvName = receiver) :=
  ⟨fun _ _ _ => ⟨rfl, rfl⟩, fun _ _ _ => ⟨rfl, rfl⟩, fun _ _ _ => ⟨rfl, rfl⟩,
    fun _ _ _ => ⟨rfl, rfl⟩, fun _ _ _ => ⟨rfl, rfl⟩, fun _ _ _ => ⟨rfl, rfl⟩,
    fun _ _ _ => ⟨rfl, rfl⟩, fun _ _ _ => ⟨rfl, rfl⟩, fun _ _ _ => ⟨rfl, rfl⟩,
    fun _ _ _ => ⟨rfl, rfl⟩, fun _ _ _ => ⟨rfl, rfl⟩, fun _ _ _ => ⟨rfl, rfl⟩,
    fun _ _ _ => ⟨rfl, rfl⟩, fun _ _ _ => ⟨rfl, rfl⟩, fun _ _ _ _ => ⟨rfl, rfl⟩,
    fun _ _ _ _ => ⟨rfl, rfl⟩, fun _ _ _ => ⟨rfl, rfl⟩, fun _ _ _ => ⟨rfl, rfl⟩⟩

/-- C10: when the container type's name does not end in List, the derived
element type name is the container name unchanged (`TrimSuffix` is the
identity) and `NewSetPortableClassItems` still produces its declaration, with
the container's own name as the element type; the suffix convention is not
validated. -/
theorem setPortableClassItems_trimSuffix_identity
    (receiver resource : String) (o : Object)
    (h : o.name.endsWith "List" = false) :
    trimSuffix o.name "List" = o.name
    ∧ NewSetPortableClassItems receiver resource o
        = setPortableClassItemsDecl receiver resource o o.name := by
  have ht : trimSuffix o.name "List" = o.name := by
    simp [trimSuffix, h]
  exact ⟨ht, by rw [show NewSetPortableClassItems receiver resource o
    = setPortableClassItemsDecl receiver resource o (trimSuffix o.name "List")
    from rfl, ht]⟩

/-- Witness for C10: a container named Foo, which does not end in List, yields
element type Foo and a complete declaration. -/
theorem setPortableClassItems_trimSuffix_identity_witness :
    trimSuffix "Foo" "List" = "Foo"
    ∧ NewSetPortableClassItems "v" "res" ⟨"Foo", []⟩
        = setPortableClassItemsDecl "v" "res" ⟨"Foo", []⟩ "Foo" :=
  setPortableClassItems_trimSuffix_identity "v" "res" ⟨"Foo", []⟩ (by decide)

end Method
